import Mathlib

/-!
Verification of the mstm wrapper (src/mstm/__init__.py) against its
natural-language specification.

The Python code is embedded shallowly:
* floating-point numbers are modelled by exact rationals (ℚ); the spec's
  "within floating-point tolerance" becomes exact equality in the model;
* numpy arrays become Lean lists or functions;
* Python text lines (str) become List Char; string operations
  (replace, split, float(...)) are modelled by the corresponding
  computable List Char functions;
* operations that can raise (IndexError, ValueError, subprocess failure)
  return Option; the observable effects of calc_scat_matrix (current
  working directory, survival of the scratch directory) are returned
  explicitly alongside the result.
-/

namespace Mstm

/-- Embedding of separate_exponent (src/mstm/__init__.py lines 49-67),
scalar case.  The Python code computes e = floor(log10(|num|)) and
b = num / 10**e, then maps NaN to 0 (np.nan_to_num) and -inf exponents
to 0.  For num = 0 the float pipeline gives b = NaN -> 0 and
e = -inf -> 0, which is exactly the zero branch below; for num ≠ 0 no
NaN or infinity arises and the definition is the direct translation,
with Int.log 10 |x| = floor (log10 |x|). -/
def separate_exponent (x : ℚ) : ℚ × ℤ :=
  if x = 0 then (0, 0)
  else (x / (10 : ℚ) ^ (Int.log 10 |x|), Int.log 10 |x|)

/-! ## Input deck: wavelength sweep triple (lines 114-123) -/

/-- lsf_delta: the step of the wavelength sweep (lines 116-119).
The source assigns lsf_delta = 0 when the length-scale-factor sequence
has exactly one element and lsf_delta = l[1] - l[0] when it has more
than one; for the empty sequence neither branch runs (the subsequent
indexing raises, see lsf_info), so the final branch value is never
observed. -/
def lsf_delta (l : List ℚ) : ℚ :=
  if l.length = 1 then 0
  else if 1 < l.length then l.getD 1 0 - l.getD 0 0
  else 0

/-- lsf_info: the (start, end, step) triple substituted into the input
deck (lines 116-123): start = l[0], end = l[len-1] + step/2.  For an
empty sequence the source raises (IndexError on l[0]), modelled by
none. -/
def lsf_info (l : List ℚ) : Option (ℚ × ℚ × ℚ) :=
  if l = [] then none
  else some (l.getD 0 0, l.getD (l.length - 1) 0 + lsf_delta l / 2, lsf_delta l)

/-! ## Angle file (lines 106-112) -/

/-- np.repeat(xs, n): each element repeated n times consecutively. -/
def np_repeat : List ℚ → ℕ → List ℚ
  | [], _ => []
  | t :: ts, n => List.replicate n t ++ np_repeat ts n

/-- np.tile(xs, m): the whole list concatenated m times. -/
def np_tile (xs : List ℚ) : ℕ → List ℚ
  | 0 => []
  | Nat.succ m => xs ++ np_tile xs m

/-- The rows of the angle file: thetatot = np.repeat(theta, len(phi))
paired with phitot = np.tile(phi, len(theta)) (vstack + transpose,
lines 108-111). -/
def angle_rows (theta phi : List ℚ) : List (ℚ × ℚ) :=
  (np_repeat theta phi.length).zip (np_tile phi theta.length)

/-- The numeric value written by the '%5.2f' format of np.savetxt
(line 112): the input rounded to 2 decimal places (the field width 5
only pads with spaces and does not change the value). -/
def fmt2 (q : ℚ) : ℚ := (round (q * 100) : ℤ) / 100

/-- The angle file contents as written by np.savetxt: one (theta, phi)
pair per line, each value formatted to 2 decimal places. -/
def angle_file (theta phi : List ℚ) : List (ℚ × ℚ) :=
  (angle_rows theta phi).map (fun r => (fmt2 r.1, fmt2 r.2))

/-! ## Output parser (lines 152-183)

Lines of the report are List Char (Python str).  Helper functions model
str.replace, enumerate-based marker search, str.split(' ') plus the
empty-token filter, and Python float(). -/

/-- str.replace(c, ''): remove every occurrence of a character. -/
def strip_c (c : Char) (l : List Char) : List Char := l.filter (fun d => d ≠ c)

/-- Lines 157-159: remove newline and tab characters from every line and
drop the lines that become empty. -/
def clean_report (raw : List (List Char)) : List (List Char) :=
  ((raw.map (strip_c '\n')).map (strip_c '\t')).filter (fun l => l ≠ [])

/-- The indices of the lines equal to a marker (lines 160-163):
[i for i, j in enumerate(mstm_result) if j == marker]. -/
def marker_rows (lines : List (List Char)) (marker : List Char) : List ℕ :=
  ((lines.enum).filter (fun p => p.2 = marker)).map Prod.fst

/-- The scattering-matrix table marker (line 161). -/
def MARKER_SM : List Char := " scattering matrix elements".data

/-- The efficiency-summary marker (line 163). -/
def MARKER_Q : List Char :=
  " unpolarized total ext, abs, scat efficiencies, w.r.t. xv, and asym. parm".data

/-- line.split(' ') followed by dropping empty tokens
(lines 173-174 and 177-178). -/
def tokens_aux : List Char → List Char → List (List Char)
  | [], cur => if cur = [] then [] else [cur.reverse]
  | c :: cs, cur =>
    if c = ' ' then
      if cur = [] then tokens_aux cs [] else cur.reverse :: tokens_aux cs []
    else tokens_aux cs (c :: cur)

/-- Whitespace tokenization of one line. -/
def tokens (l : List Char) : List (List Char) := tokens_aux l []

/-- Accumulate a run of decimal digits into a natural number. -/
def digitsToNat (ds : List Char) : ℕ :=
  ds.foldl (fun a c => 10 * a + (c.toNat - 48)) 0

/-- Python float() on a token, for the decimal forms the solver report
uses: [sign] digits [. digits] [e/E [sign] digits].  Malformed tokens
(and the special words inf/nan, which have no rational value) give
none, matching the ValueError raised by float() on malformed input. -/
def pyfloat (s : List Char) : Option ℚ :=
  let sgn : ℚ := match s with
    | '-' :: _ => -1
    | _ => 1
  let rest : List Char := match s with
    | '+' :: r => r
    | '-' :: r => r
    | r => r
  let mant := rest.takeWhile (fun c => c ≠ 'e' ∧ c ≠ 'E')
  let expPart := rest.dropWhile (fun c => c ≠ 'e' ∧ c ≠ 'E')
  let ip := mant.takeWhile (fun c => c ≠ '.')
  let fp := match mant.dropWhile (fun c => c ≠ '.') with
    | '.' :: t => t
    | _ => []
  if ¬ (ip.all Char.isDigit ∧ fp.all Char.isDigit) then none
  else if ip = [] ∧ fp = [] then none
  else
    let mval : ℚ := sgn * ((digitsToNat ip : ℚ) + (digitsToNat fp : ℚ) / 10 ^ fp.length)
    match expPart with
    | [] => some mval
    | _ :: etail =>
      let esgn : ℤ := match etail with
        | '-' :: _ => -1
        | _ => 1
      let edig : List Char := match etail with
        | '+' :: r => r
        | '-' :: r => r
        | r => r
      if edig = [] ∨ ¬ edig.all Char.isDigit then none
      else some (mval * (10 : ℚ) ^ (esgn * (digitsToNat edig : ℤ)))

/-- The marker-relative line offset of the efficiency line
(lines 165-168): 3 when the derived polarization angle is exactly zero,
5 otherwise. -/
def qsca_line_shift (pa : ℚ) : ℕ := if pa = 0 then 3 else 5

/-- Extraction of the extinction-efficiency scalar (lines 172-175):
read the line at the given offset after the marker row, tokenize it,
take token 2 and convert with float().  Any failure (line index out of
range, fewer than 3 tokens, malformed number) is none. -/
def extract_qsca (lines : List (List Char)) (r shift : ℕ) : Option ℚ :=
  (lines[r + shift]?).bind (fun line => ((tokens line)[2]?).bind pyfloat)

/-- Per-row normalization (lines 180-182): the whole row is multiplied
by qsca/8, then entries 0 and 1 are further multiplied by 8/qsca. -/
def scale_row (qsca : ℚ) (row : List ℚ) : List ℚ :=
  let r1 := row.map (fun v => v * qsca / 8)
  let r2 := r1.set 0 (r1.getD 0 0 * 8 / qsca)
  r2.set 1 (r2.getD 1 0 * 8 / qsca)

/-- The transformation claim C2 states, taken from the claim's words
(for comparison with scale_row): the first two columns scaled by (q/8)
and (8/q) respectively, every other column by (q/8). -/
def scale_row_claim (q : ℚ) (row : List ℚ) : List ℚ :=
  (List.range row.length).map (fun k =>
    if k = 0 then row.getD k 0 * (q / 8)
    else if k = 1 then row.getD k 0 * (8 / q)
    else row.getD k 0 * (q / 8))

/-- One iteration of the wavelength loop body before the array store
(lines 170-182): read the efficiency scalar for marker m, slice the
nang lines starting 2 after the scattering-matrix marker, tokenize and
float() every row, and normalize each row with scale_row. -/
def parse_block (lines : List (List Char)) (shift nang r qr : ℕ) :
    Option (List (List ℚ)) :=
  (extract_qsca lines qr shift).bind (fun q =>
    (((lines.drop (r + 2)).take nang).mapM
        (fun s => (tokens s).mapM pyfloat)).bind (fun rows =>
      if rows.length = nang then some (rows.map (scale_row q)) else none))

/-- The loop for m in range(len(scat_mat_el_row)) (lines 169-183).
acc is scat_mat_data; storing block m requires m < len(acc) (else
IndexError) and a block of exactly nang rows of 18 columns (else the
numpy slice assignment fails); qrows.get? m models the IndexError on
qsca_row[m]. -/
def parse_loop (lines : List (List Char)) (qrows : List ℕ) (shift nang : ℕ) :
    ℕ → List ℕ → List (List (List ℚ)) → Option (List (List (List ℚ)))
  | _, [], acc => some acc
  | m, r :: rs, acc =>
    (qrows[m]?).bind (fun qr =>
      (parse_block lines shift nang r qr).bind (fun rows =>
        if m < acc.length ∧ (∀ row ∈ rows, row.length = 18) then
          parse_loop lines qrows shift nang (m + 1) rs (acc.set m rows)
        else none))

/-- The whole result-file parser (lines 152-183): clean the lines,
locate both marker sets, and run the wavelength loop starting from the
all-zeros array np.zeros([w, nang, 18]). -/
def parse_report (w nang : ℕ) (pa : ℚ) (raw : List (List Char)) :
    Option (List (List (List ℚ))) :=
  let lines := clean_report raw
  parse_loop lines (marker_rows lines MARKER_Q) (qsca_line_shift pa) nang
    0 (marker_rows lines MARKER_SM)
    (List.replicate w (List.replicate nang (List.replicate 18 0)))

/-! ## Effects model of calc_scat_matrix (lines 69-190)

The function chdirs into the scratch directory (line 103), builds the
angle file and the input deck (lines 106-146), runs the solver
(line 150), parses the report (lines 152-183), and only on the success
path chdirs back and optionally deletes the scratch directory
(lines 186-188).  There is no try/finally, so every raised exception
(empty length_scl_factor while building the deck, non-zero solver exit
from check_call, any parse failure) propagates with the working
directory still the scratch directory and the scratch directory still
on disk.  The polarization angle pa (arctan2 of the Jones components,
line 124) and the solver behaviour (exit status, report lines) are
inputs of the model. -/
def calc_scat_matrix_run (orig temp : String) (lsf theta phi : List ℚ)
    (pa : ℚ) (delete : Bool) (solver_exit : ℕ) (report : List (List Char)) :
    Option (List (List (List ℚ))) × String × Bool :=
  match lsf_info lsf with
  | none => (none, temp, true)
  | some _ =>
    if solver_exit ≠ 0 then (none, temp, true)
    else
      match parse_report lsf.length (angle_rows theta phi).length pa report with
      | none => (none, temp, true)
      | some arr => (some arr, orig, !delete)

/-! ## Post-processing (lines 192-260) -/

/-- calc_intensity array contents (lines 216-225), as a function of the
scattering-matrix array: columns 0 and 1 are passed through, column 2
is the Stokes-weighted combination of scattering-matrix columns 2..5
times the per-wavelength prefactor 1/(index_matrix*lsf[w])^2. -/
def calc_intensity (index_matrix : ℚ) (lsf stokes : ℕ → ℚ)
    (scat : ℕ → ℕ → ℕ → ℚ) (w a c : ℕ) : ℚ :=
  if c = 0 then scat w a 0
  else if c = 1 then scat w a 1
  else if c = 2 then
    (1 / (index_matrix * lsf w) ^ 2) *
      (scat w a 2 * stokes 0 + scat w a 3 * stokes 1 +
       scat w a 4 * stokes 2 + scat w a 5 * stokes 3)
  else 0

/-- Effects model of calc_intensity (lines 192-226): it calls
calc_scat_matrix(target, incident, theta, phi) with the delete flag at
its default False — its signature offers no way to pass delete — and
post-processes the result.  The returned triple carries the intensity
array (on success), the final working directory and whether the scratch
directory is left on disk. -/
def calc_intensity_run (orig temp : String) (im : ℚ) (lsf theta phi : List ℚ)
    (pa : ℚ) (stokes : ℕ → ℚ) (solver_exit : ℕ) (report : List (List Char)) :
    Option (ℕ → ℕ → ℕ → ℚ) × String × Bool :=
  match calc_scat_matrix_run orig temp lsf theta phi pa false solver_exit report with
  | (res, cwd, left) =>
    (res.map (fun arr => calc_intensity im (fun w => lsf.getD w 0) stokes
        (fun w a c => ((arr.getD w []).getD a []).getD c 0)), cwd, left)

/-- Effects model of calc_cross_section (lines 228-260): it calls
calc_intensity (and hence calc_scat_matrix with delete = False; its
signature offers no delete argument either).  The numerical quadrature
of the intensity is not modelled — only success and the solver-run
effects, which is all the claims about this entry point concern. -/
def calc_cross_section_run (orig temp : String) (im : ℚ) (lsf theta phi : List ℚ)
    (pa : ℚ) (stokes : ℕ → ℚ) (solver_exit : ℕ) (report : List (List Char)) :
    Option Unit × String × Bool :=
  match calc_intensity_run orig temp im lsf theta phi pa stokes solver_exit report with
  | (res, cwd, left) => (res.map (fun _ => ()), cwd, left)

/-- A minimal well-formed solver report for one wavelength and one
angle-grid point: scattering-matrix marker, header line, one 18-column
row, efficiency marker and, at offset 3, the efficiency line with value
2 in field index 2. -/
def sample_report : List (List Char) :=
  [MARKER_SM, "h".data,
   "1 2 3 4 5 6 7 8 9 10 11 12 13 14 15 16 17 18".data,
   MARKER_Q, "x".data, "y".data, " 1 2 2".data]

/-- The array parsed from sample_report: columns 0 and 1 unchanged, the
rest scaled by 2/8. -/
def sample_arr : List (List (List ℚ)) :=
  [[[1, 2, 3/4, 1, 5/4, 3/2, 7/4, 2, 9/4, 5/2, 11/4, 3,
     13/4, 7/2, 15/4, 4, 17/4, 9/2]]]

end Mstm

namespace Mstm

/-- C1: for nonzero x the pair returned by separate_exponent satisfies
base * 10 ^ exponent = x and 1 ≤ |base| < 10; for x = 0 it returns
(0, 0) (the NaN / -inf produced by the float intermediate steps are
mapped to 0, so neither output is NaN or -inf). -/
theorem separate_exponent_spec (x : ℚ) (hx : x ≠ 0) :
    (separate_exponent x).1 * (10 : ℚ) ^ (separate_exponent x).2 = x ∧
    1 ≤ |(separate_exponent x).1| ∧ |(separate_exponent x).1| < 10 ∧
    separate_exponent 0 = (0, 0) := by
  have hx' : 0 < |x| := abs_pos.mpr hx
  have h10 : ((10 : ℕ) : ℚ) = (10 : ℚ) := by norm_num
  have hb : (1 : ℕ) < 10 := by norm_num
  have hle : (10 : ℚ) ^ (Int.log 10 |x|) ≤ |x| := by
    have := Int.zpow_log_le_self (b := 10) hb hx'
    rwa [h10] at this
  have hlt : |x| < (10 : ℚ) ^ (Int.log 10 |x| + 1) := by
    have := Int.lt_zpow_succ_log_self (b := 10) hb |x|
    rwa [h10] at this
  have hpow : (0 : ℚ) < (10 : ℚ) ^ (Int.log 10 |x|) := by positivity
  have hne : ((10 : ℚ) ^ (Int.log 10 |x|)) ≠ 0 := ne_of_gt hpow
  simp only [separate_exponent, if_neg hx]
  refine ⟨div_mul_cancel₀ x hne, ?_, ?_, by simp [separate_exponent]⟩
  · rw [abs_div, abs_of_pos hpow]
    exact (one_le_div hpow).mpr hle
  · rw [abs_div, abs_of_pos hpow]
    rw [div_lt_iff₀ hpow]
    calc |x| < (10 : ℚ) ^ (Int.log 10 |x| + 1) := hlt
    _ = 10 * (10 : ℚ) ^ (Int.log 10 |x|) := by
        rw [zpow_add_one₀ (by norm_num : (10:ℚ) ≠ 0)]; ring

/-- Witness for separate_exponent_spec at x = 3. -/
theorem separate_exponent_spec_witness :
    (3 : ℚ) ≠ 0 ∧
    ((separate_exponent 3).1 * (10 : ℚ) ^ (separate_exponent 3).2 = 3 ∧
     1 ≤ |(separate_exponent 3).1| ∧ |(separate_exponent 3).1| < 10 ∧
     separate_exponent 0 = (0, 0)) :=
  ⟨by norm_num, separate_exponent_spec 3 (by norm_num)⟩

/-- C4: for a non-empty length-scale-factor sequence the wavelength
triple is (start, end, step) with start the first sample, end the last
sample plus step/2, step 0 for a single sample and the uniform spacing
otherwise (uniform spacing stated as a Chain' hypothesis, which is the
spec's assumed invariant on the sequence). -/
theorem lsf_info_spec (l : List ℚ) (δ : ℚ) (h : l ≠ [])
    (hu : ∀ i, i + 1 < l.length → l.getD (i + 1) 0 - l.getD i 0 = δ) :
    lsf_info l =
      some (l.getD 0 0, l.getD (l.length - 1) 0 + lsf_delta l / 2, lsf_delta l) ∧
    (l.length = 1 → lsf_delta l = 0) ∧
    (1 < l.length → lsf_delta l = δ) := by
  refine ⟨by simp [lsf_info, h], fun h1 => by simp [lsf_delta, h1], fun h2 => ?_⟩
  have h0 := hu 0 (by omega)
  simp only [lsf_delta, if_neg (by omega : ¬ l.length = 1), if_pos h2]
  simpa using h0

/-- Witness for lsf_info_spec at l = [1, 3], spacing 2. -/
theorem lsf_info_spec_witness :
    ([(1 : ℚ), 3] : List ℚ) ≠ [] ∧
    (lsf_info [(1 : ℚ), 3] =
      some (([(1 : ℚ), 3]).getD 0 0,
            ([(1 : ℚ), 3]).getD (([(1 : ℚ), 3]).length - 1) 0 +
              lsf_delta [(1 : ℚ), 3] / 2,
            lsf_delta [(1 : ℚ), 3]) ∧
     (([(1 : ℚ), 3]).length = 1 → lsf_delta [(1 : ℚ), 3] = 0) ∧
     (1 < ([(1 : ℚ), 3]).length → lsf_delta [(1 : ℚ), 3] = 2)) :=
  ⟨by simp, lsf_info_spec [(1 : ℚ), 3] 2 (by simp)
    (fun i hi => by
      have h0 : i = 0 := by
        simp only [List.length_cons, List.length_nil] at hi
        omega
      subst h0
      with_unfolding_all rfl)⟩

/-- C10: calling calc_scat_matrix with an empty length_scl_factor fails
while building the input deck, before the solver is invoked: the
outcome is an error that does not depend on the solver's exit status or
report, and both other entry points fail the same way. -/
theorem empty_lsf_spec (orig temp : String) (theta phi : List ℚ) (pa : ℚ)
    (delete : Bool) (se se2 : ℕ) (report report2 : List (List Char))
    (im : ℚ) (stokes : ℕ → ℚ) :
    calc_scat_matrix_run orig temp [] theta phi pa delete se report =
      (none, temp, true) ∧
    calc_scat_matrix_run orig temp [] theta phi pa delete se report =
      calc_scat_matrix_run orig temp [] theta phi pa delete se2 report2 ∧
    (calc_intensity_run orig temp im [] theta phi pa stokes se report).1 = none ∧
    (calc_cross_section_run orig temp im [] theta phi pa stokes se report).1 =
      none :=
  ⟨rfl, rfl, rfl, rfl⟩

/-- Counterexample to C2 as stated: with efficiency 16 and an all-ones
18-column row, the stored row (columns 0 and 1 net unchanged) differs
from the claim's transformation (column 0 times 16/8, column 1 times
8/16). -/
theorem scale_row_claim_cex :
    scale_row 16 (List.replicate 18 (1 : ℚ)) ≠
      scale_row_claim 16 (List.replicate 18 (1 : ℚ)) :=
  ne_of_beq_false (by with_unfolding_all rfl)

/-- C2 amended: the parser multiplies the whole row by qsca/8 and then
multiplies each of the first two columns by 8/qsca, so columns 0 and 1
are stored unchanged while every other column is scaled by qsca/8. -/
theorem scale_row_spec (q : ℚ) (hq : q ≠ 0) (row : List ℚ) (k : ℕ)
    (hk : 2 ≤ k) :
    (scale_row q row).getD 0 0 = row.getD 0 0 ∧
    (scale_row q row).getD 1 0 = row.getD 1 0 ∧
    (scale_row q row).getD k 0 = row.getD k 0 * (q / 8) ∧
    (scale_row q row).length = row.length := by
  have key : ∀ v : ℚ, v * q / 8 * 8 / q = v := by
    intro v; field_simp
  obtain ⟨k2, rfl⟩ : ∃ k2, k = k2 + 2 := ⟨k - 2, by omega⟩
  have map_getD : ∀ (t : List ℚ) (i : ℕ),
      (t.map (fun v => v * q / 8)).getD i 0 = t.getD i 0 * (q / 8) := by
    intro t
    induction t with
    | nil => intro i; simp
    | cons a t ih =>
      intro i
      cases i with
      | zero => simp [mul_div_assoc]
      | succ i => simpa using ih i
  match row with
  | [] => exact ⟨rfl, rfl, by simp [scale_row], rfl⟩
  | [a] => exact ⟨key a, rfl, by simp [scale_row], rfl⟩
  | a :: b :: t => exact ⟨key a, key b, map_getD t k2, by simp [scale_row]⟩

/-- Witness for scale_row_spec at q = 2, row = [5, 6, 7, 9], k = 3. -/
theorem scale_row_spec_witness :
    (2 : ℚ) ≠ 0 ∧ 2 ≤ 3 ∧
    ((scale_row 2 [5, 6, 7, 9]).getD 0 0 = ([(5 : ℚ), 6, 7, 9]).getD 0 0 ∧
     (scale_row 2 [5, 6, 7, 9]).getD 1 0 = ([(5 : ℚ), 6, 7, 9]).getD 1 0 ∧
     (scale_row 2 [5, 6, 7, 9]).getD 3 0 =
       ([(5 : ℚ), 6, 7, 9]).getD 3 0 * (2 / 8) ∧
     (scale_row 2 [5, 6, 7, 9]).length = ([(5 : ℚ), 6, 7, 9]).length) :=
  ⟨by norm_num, by norm_num, scale_row_spec 2 (by norm_num) [5, 6, 7, 9] 3 (by norm_num)⟩

/-- Counterexample to C3 as stated: two reports differing only in ONE
extra metadata line before the efficiency line.  The zero-polarization
path (offset 3) extracts 2; the nonzero-polarization path (offset 5)
lands two lines past the marker-relative position of the efficiency
line, so it does not extract the same scalar. -/
theorem qsca_offset_cex :
    extract_qsca [MARKER_Q, "a".data, "b".data, " 1 2 2".data, "x".data] 0
      (qsca_line_shift 0) = some 2 ∧
    extract_qsca [MARKER_Q, "a".data, "b".data, "meta".data, " 1 2 2".data,
      "x".data] 0 (qsca_line_shift 1) ≠ some 2 :=
  ⟨by with_unfolding_all rfl, ne_of_beq_false (by with_unfolding_all rfl)⟩

/-- C3 amended: the efficiency scalar is read at marker offset 3 exactly
when the derived polarization angle is zero and at offset 5 otherwise,
and for two reports differing only in TWO extra metadata lines inserted
between the marker and the efficiency line when polarization is
nonzero, the two paths extract the same scalar. -/
theorem qsca_offset_spec (lines : List (List Char)) (r p : ℕ) (pa : ℚ)
    (hpa : pa ≠ 0) (hrp : r < p) (hpl : p ≤ r + 3) (m1 m2 : List Char) (q : ℚ)
    (h : extract_qsca lines r (qsca_line_shift 0) = some q) :
    (∀ y : ℚ, qsca_line_shift y = 3 ↔ y = 0) ∧
    qsca_line_shift pa = 5 ∧
    extract_qsca (lines.take p ++ [m1, m2] ++ lines.drop p) r
      (qsca_line_shift pa) = some q := by
  have hsel : ∀ y : ℚ, qsca_line_shift y = 3 ↔ y = 0 := by
    intro y
    by_cases hy : y = 0 <;> simp [qsca_line_shift, hy]
  have h5 : qsca_line_shift pa = 5 := by simp [qsca_line_shift, hpa]
  have h3 : qsca_line_shift (0 : ℚ) = 3 := by simp [qsca_line_shift]
  rw [h3] at h
  refine ⟨hsel, h5, ?_⟩
  rw [h5]
  unfold extract_qsca at h ⊢
  cases hl : lines[r + 3]? with
  | none => rw [hl] at h; simp at h
  | some line =>
    rw [hl] at h
    have hlen : r + 3 < lines.length := by
      by_contra hc
      push_neg at hc
      rw [List.getElem?_eq_none hc] at hl
      cases hl
    have hkey : (lines.take p ++ [m1, m2] ++ lines.drop p)[r + 5]? =
        some line := by
      rw [List.getElem?_append_right
        (by simp only [List.length_append, List.length_take,
              List.length_cons, List.length_nil]; omega)]
      have e1 : r + 5 - (List.take p lines ++ [m1, m2]).length = r + 3 - p := by
        simp only [List.length_append, List.length_take,
          List.length_cons, List.length_nil]
        omega
      rw [e1, List.getElem?_drop]
      have e2 : p + (r + 3 - p) = r + 3 := by omega
      rw [e2, hl]
    rw [hkey]
    exact h

/-- Witness for qsca_offset_spec: marker at row 0, two metadata lines
inserted at position 3, nonzero polarization angle 1. -/
theorem qsca_offset_spec_witness :
    (1 : ℚ) ≠ 0 ∧
    ((∀ y : ℚ, qsca_line_shift y = 3 ↔ y = 0) ∧
     qsca_line_shift 1 = 5 ∧
     extract_qsca (([MARKER_Q, "a".data, "b".data, " 1 2 2".data,
         "x".data].take 3) ++ ["u".data, "v".data] ++
       ([MARKER_Q, "a".data, "b".data, " 1 2 2".data, "x".data].drop 3)) 0
       (qsca_line_shift 1) = some 2) :=
  ⟨by norm_num,
   qsca_offset_spec [MARKER_Q, "a".data, "b".data, " 1 2 2".data, "x".data]
     0 3 1 (by norm_num) (by norm_num) (by norm_num) "u".data "v".data 2
     (by with_unfolding_all rfl)⟩

/-- Counterexample to C8 as stated: a call whose solver exits nonzero
propagates the failure with the working directory still the scratch
directory, not the one current at entry (there is no try/finally around
the chdir). -/
theorem calc_scat_matrix_cwd_cex :
    (calc_scat_matrix_run "home" "scratch" [1] [0] [0] 0 false 1 []).1 =
      none ∧
    (calc_scat_matrix_run "home" "scratch" [1] [0] [0] 0 false 1 []).2.1 ≠
      "home" :=
  ⟨by with_unfolding_all rfl, ne_of_beq_false (by with_unfolding_all rfl)⟩

/-- C8 amended: the working directory is restored to the entry
directory exactly on the normal-return path; on every propagated
failure (deck building, solver exit, parsing) it is left at the scratch
directory. -/
theorem calc_scat_matrix_cwd_spec (orig temp : String)
    (lsf theta phi : List ℚ) (pa : ℚ) (delete : Bool) (se : ℕ)
    (report : List (List Char)) :
    (calc_scat_matrix_run orig temp lsf theta phi pa delete se report).2.1 =
      if (calc_scat_matrix_run orig temp lsf theta phi pa delete se
            report).1.isSome
      then orig else temp := by
  unfold calc_scat_matrix_run
  cases lsf_info lsf with
  | none => rfl
  | some d =>
    by_cases hse : se ≠ 0
    · simp only [if_pos hse]; rfl
    · simp only [if_neg hse]
      cases parse_report lsf.length (angle_rows theta phi).length pa report with
      | none => rfl
      | some arr => rfl

/-- C5: calc_intensity passes the theta and phi columns through and its
intensity column is the Stokes-weighted sum of scattering-matrix
columns 2..5 scaled by 1/(index_matrix*length_scl_factor)^2. -/
theorem calc_intensity_spec (im : ℚ) (lsf stokes : ℕ → ℚ)
    (scat : ℕ → ℕ → ℕ → ℚ) (w a : ℕ) :
    calc_intensity im lsf stokes scat w a 0 = scat w a 0 ∧
    calc_intensity im lsf stokes scat w a 1 = scat w a 1 ∧
    calc_intensity im lsf stokes scat w a 2 =
      (1 / (im * lsf w) ^ 2) *
        ∑ k ∈ Finset.range 4, stokes k * scat w a (2 + k) := by
  refine ⟨rfl, rfl, ?_⟩
  have hs : ∑ k ∈ Finset.range 4, stokes k * scat w a (2 + k) =
      stokes 0 * scat w a 2 + stokes 1 * scat w a 3 +
      stokes 2 * scat w a 4 + stokes 3 * scat w a 5 := by
    simp [Finset.sum_range_succ]
  rw [hs]
  show (1 / (im * lsf w) ^ 2) *
      (scat w a 2 * stokes 0 + scat w a 3 * stokes 1 +
       scat w a 4 * stokes 2 + scat w a 5 * stokes 3) = _
  ring

/-- C9: calc_intensity and calc_cross_section always reach
calc_scat_matrix with the delete flag at its default False (their
signatures offer no way to change it), so the scratch directory is left
on disk for every call of these two entry points. -/
theorem temp_dir_left_spec (orig temp : String) (im : ℚ)
    (lsf theta phi : List ℚ) (pa : ℚ) (stokes : ℕ → ℚ) (se : ℕ)
    (report : List (List Char)) :
    (calc_intensity_run orig temp im lsf theta phi pa stokes se report).2.2 =
      true ∧
    (calc_cross_section_run orig temp im lsf theta phi pa stokes se
        report).2.2 = true := by
  have key :
      (calc_scat_matrix_run orig temp lsf theta phi pa false se report).2.2 =
        true := by
    unfold calc_scat_matrix_run
    cases lsf_info lsf with
    | none => rfl
    | some d =>
      by_cases hse : se ≠ 0
      · simp [hse]
      · simp only [hse, if_false, if_neg]
        cases parse_report lsf.length (angle_rows theta phi).length pa report with
        | none => simp [hse]
        | some arr => simp [hse]
  exact ⟨key, key⟩

theorem np_repeat_length (xs : List ℚ) (n : ℕ) :
    (np_repeat xs n).length = xs.length * n := by
  induction xs with
  | nil => simp [np_repeat]
  | cons t ts ih => simp [np_repeat, ih]; ring

theorem np_tile_length (xs : List ℚ) (m : ℕ) :
    (np_tile xs m).length = m * xs.length := by
  induction m with
  | zero => simp [np_tile]
  | succ m2 ih => simp [np_tile, ih]; ring

theorem angle_rows_length (theta phi : List ℚ) :
    (angle_rows theta phi).length = theta.length * phi.length := by
  simp [angle_rows, np_repeat_length, np_tile_length, Nat.mul_comm]

theorem np_repeat_getD (xs : List ℚ) (n i j : ℕ) (hi : i < xs.length)
    (hj : j < n) : (np_repeat xs n).getD (i * n + j) 0 = xs.getD i 0 := by
  induction xs generalizing i with
  | nil => simp at hi
  | cons t ts ih =>
    cases i with
    | zero =>
      simp only [np_repeat, Nat.zero_mul, Nat.zero_add]
      rw [List.getD_append _ _ _ _ (by simpa using hj)]
      simp [List.getD_eq_getElem?_getD, List.getElem?_replicate_of_lt hj]
    | succ i2 =>
      simp only [np_repeat]
      have e : (i2 + 1) * n + j = n + (i2 * n + j) := by ring
      rw [e, List.getD_append_right _ _ _ _ (by simp)]
      simp only [List.length_replicate, Nat.add_sub_cancel_left,
        List.getD_cons_succ]
      exact ih i2 (by simpa using hi)

theorem np_tile_getD (phi : List ℚ) (m i j : ℕ) (hj : j < phi.length)
    (hi : i < m) :
    (np_tile phi m).getD (i * phi.length + j) 0 = phi.getD j 0 := by
  induction m generalizing i with
  | zero => exact absurd hi (Nat.not_lt_zero i)
  | succ m2 ih =>
    cases i with
    | zero =>
      simp only [np_tile, Nat.zero_mul, Nat.zero_add]
      rw [List.getD_append _ _ _ _ hj]
    | succ i2 =>
      simp only [np_tile]
      have e : (i2 + 1) * phi.length + j = phi.length + (i2 * phi.length + j) := by
        ring
      rw [e, List.getD_append_right _ _ _ _ (by simp), Nat.add_sub_cancel_left]
      exact ih i2 (by omega)

theorem np_repeat_getElem2 (xs : List ℚ) (n i j : ℕ) (hi : i < xs.length)
    (hj : j < n) : (np_repeat xs n)[i * n + j]? = some (xs.getD i 0) := by
  have h1 : i * n + j < (np_repeat xs n).length := by
    rw [np_repeat_length]
    calc i * n + j < i * n + n := by omega
    _ = (i + 1) * n := by ring
    _ ≤ xs.length * n := Nat.mul_le_mul_right n hi
  have h2 := np_repeat_getD xs n i j hi hj
  rw [List.getD_eq_getElem?_getD, List.getElem?_eq_getElem h1,
    Option.getD_some] at h2
  rw [List.getElem?_eq_getElem h1, h2]

theorem np_tile_getElem2 (phi : List ℚ) (m i j : ℕ) (hj : j < phi.length)
    (hi : i < m) :
    (np_tile phi m)[i * phi.length + j]? = some (phi.getD j 0) := by
  have h1 : i * phi.length + j < (np_tile phi m).length := by
    rw [np_tile_length]
    calc i * phi.length + j < i * phi.length + phi.length := by omega
    _ = (i + 1) * phi.length := by ring
    _ ≤ m * phi.length := Nat.mul_le_mul_right phi.length hi
  have h2 := np_tile_getD phi m i j hj hi
  rw [List.getD_eq_getElem?_getD, List.getElem?_eq_getElem h1,
    Option.getD_some] at h2
  rw [List.getElem?_eq_getElem h1, h2]

theorem angle_rows_getElem2 (theta phi : List ℚ) (i j : ℕ)
    (hi : i < theta.length) (hj : j < phi.length) :
    (angle_rows theta phi)[i * phi.length + j]? =
      some (theta.getD i 0, phi.getD j 0) := by
  unfold angle_rows
  rw [List.getElem?_zip_eq_some]
  exact ⟨np_repeat_getElem2 theta phi.length i j hi hj,
    np_tile_getElem2 phi theta.length i j hj hi⟩

/-- C6: the angle file has exactly m*n lines, one per (theta, phi) pair
of the outer product with theta varying slower than phi, each value
written to 2 decimal places (an integer multiple of 1/100). -/
theorem angle_file_spec (theta phi : List ℚ) (i j : ℕ)
    (hi : i < theta.length) (hj : j < phi.length) :
    (angle_file theta phi).length = theta.length * phi.length ∧
    (angle_file theta phi).getD (i * phi.length + j) (0, 0) =
      (fmt2 (theta.getD i 0), fmt2 (phi.getD j 0)) ∧
    ∀ pr ∈ angle_file theta phi, ∃ a b : ℤ,
      pr.1 = (a : ℚ) / 100 ∧ pr.2 = (b : ℚ) / 100 := by
  refine ⟨by simp [angle_file, angle_rows_length], ?_, ?_⟩
  · unfold angle_file
    rw [List.getD_eq_getElem?_getD, List.getElem?_map,
      angle_rows_getElem2 theta phi i j hi hj]
    rfl
  · intro pr hpr
    unfold angle_file at hpr
    obtain ⟨r0, hr0, rfl⟩ := List.mem_map.mp hpr
    exact ⟨round (r0.1 * 100), round (r0.2 * 100), rfl, rfl⟩

/-- Witness for angle_file_spec at theta = [1, 2], phi = [3], i = 1,
j = 0. -/
theorem angle_file_spec_witness :
    1 < ([(1 : ℚ), 2] : List ℚ).length ∧ 0 < ([(3 : ℚ)] : List ℚ).length ∧
    ((angle_file [1, 2] [3]).length =
        ([(1 : ℚ), 2] : List ℚ).length * ([(3 : ℚ)] : List ℚ).length ∧
     (angle_file [1, 2] [3]).getD (1 * ([(3 : ℚ)] : List ℚ).length + 0) (0, 0) =
       (fmt2 (([(1 : ℚ), 2] : List ℚ).getD 1 0),
        fmt2 (([(3 : ℚ)] : List ℚ).getD 0 0)) ∧
     ∀ pr ∈ angle_file [(1 : ℚ), 2] [3], ∃ a b : ℤ,
       pr.1 = (a : ℚ) / 100 ∧ pr.2 = (b : ℚ) / 100) :=
  ⟨by simp, by simp, angle_file_spec [1, 2] [3] 1 0 (by simp) (by simp)⟩

theorem parse_block_length (lines : List (List Char)) (shift nang r qr : ℕ)
    (rows : List (List ℚ)) (h : parse_block lines shift nang r qr = some rows) :
    rows.length = nang := by
  unfold parse_block at h
  cases he : extract_qsca lines qr shift with
  | none => rw [he] at h; simp at h
  | some q =>
    rw [he] at h
    simp only [Option.some_bind] at h
    cases hm : ((lines.drop (r + 2)).take nang).mapM
        (fun s => (tokens s).mapM pyfloat) with
    | none => rw [hm] at h; simp at h
    | some rows0 =>
      rw [hm] at h
      simp only [Option.some_bind] at h
      by_cases hlen : rows0.length = nang
      · rw [if_pos hlen, Option.some.injEq] at h
        subst h
        simp [hlen]
      · rw [if_neg hlen] at h; simp at h

theorem parse_loop_shape (lines : List (List Char)) (qrows : List ℕ)
    (shift nang : ℕ) (rs : List ℕ) :
    ∀ (m : ℕ) (acc out : List (List (List ℚ))),
      (∀ blk ∈ acc, blk.length = nang ∧ ∀ row ∈ blk, row.length = 18) →
      parse_loop lines qrows shift nang m rs acc = some out →
      out.length = acc.length ∧
      ∀ blk ∈ out, blk.length = nang ∧ ∀ row ∈ blk, row.length = 18 := by
  induction rs with
  | nil =>
    intro m acc out hacc hp
    simp only [parse_loop, Option.some.injEq] at hp
    subst hp
    exact ⟨rfl, hacc⟩
  | cons r rs ih =>
    intro m acc out hacc hp
    simp only [parse_loop] at hp
    cases hq : qrows[m]? with
    | none => rw [hq] at hp; simp at hp
    | some qr =>
      rw [hq] at hp
      simp only [Option.some_bind] at hp
      cases hb : parse_block lines shift nang r qr with
      | none => rw [hb] at hp; simp at hp
      | some rows =>
        rw [hb] at hp
        simp only [Option.some_bind] at hp
        by_cases hc : m < acc.length ∧ (∀ row ∈ rows, row.length = 18)
        · rw [if_pos hc] at hp
          have hacc2 : ∀ blk ∈ acc.set m rows,
              blk.length = nang ∧ ∀ row ∈ blk, row.length = 18 := by
            intro blk hblk
            rcases List.mem_or_eq_of_mem_set hblk with hmem | rfl
            · exact hacc blk hmem
            · exact ⟨parse_block_length lines shift nang r qr blk hb, hc.2⟩
          obtain ⟨h1, h2⟩ := ih (m + 1) (acc.set m rows) out hacc2 hp
          exact ⟨by rw [h1, List.length_set], h2⟩
        · rw [if_neg hc] at hp; simp at hp

theorem parse_report_shape (w nang : ℕ) (pa : ℚ) (raw : List (List Char))
    (out : List (List (List ℚ))) (h : parse_report w nang pa raw = some out) :
    out.length = w ∧
    ∀ blk ∈ out, blk.length = nang ∧ ∀ row ∈ blk, row.length = 18 := by
  unfold parse_report at h
  have hinit : ∀ blk ∈ List.replicate w
      (List.replicate nang (List.replicate 18 (0 : ℚ))),
      blk.length = nang ∧ ∀ row ∈ blk, row.length = 18 := by
    intro blk hblk
    rw [List.eq_of_mem_replicate hblk]
    refine ⟨by simp, fun row hrow => ?_⟩
    rw [List.eq_of_mem_replicate hrow]
    simp
  obtain ⟨h1, h2⟩ := parse_loop_shape (clean_report raw)
    (marker_rows (clean_report raw) MARKER_Q) (qsca_line_shift pa) nang
    (marker_rows (clean_report raw) MARKER_SM) 0 _ out hinit h
  exact ⟨by rw [h1, List.length_replicate], h2⟩

/-- C7: every successful call of calc_scat_matrix returns an array of
shape [number of wavelengths, number of theta times number of phi, 18]. -/
theorem calc_scat_matrix_shape (orig temp : String) (lsf theta phi : List ℚ)
    (pa : ℚ) (delete : Bool) (se : ℕ) (report : List (List Char))
    (arr : List (List (List ℚ)))
    (h : (calc_scat_matrix_run orig temp lsf theta phi pa delete se
        report).1 = some arr) :
    arr.length = lsf.length ∧
    ∀ blk ∈ arr, blk.length = theta.length * phi.length ∧
      ∀ row ∈ blk, row.length = 18 := by
  unfold calc_scat_matrix_run at h
  cases hi : lsf_info lsf with
  | none => rw [hi] at h; simp at h
  | some d =>
    rw [hi] at h
    by_cases hse : se ≠ 0
    · rw [if_pos hse] at h; simp at h
    · rw [if_neg hse] at h
      cases hp : parse_report lsf.length (angle_rows theta phi).length pa
          report with
      | none => rw [hp] at h; simp at h
      | some arr2 =>
        rw [hp] at h
        simp only [Option.some.injEq] at h
        subst h
        obtain ⟨h1, h2⟩ := parse_report_shape _ _ _ _ _ hp
        rw [angle_rows_length] at h2
        exact ⟨h1, h2⟩

/-- Witness for calc_scat_matrix_shape: a run on sample_report with one
wavelength and a 1x1 angle grid parses to sample_arr of shape
[1, 1, 18]. -/
theorem calc_scat_matrix_shape_witness :
    (calc_scat_matrix_run "home" "scratch" [1] [0] [0] 0 false 0
        sample_report).1 = some sample_arr ∧
    (sample_arr.length = ([(1 : ℚ)] : List ℚ).length ∧
     ∀ blk ∈ sample_arr,
       blk.length = ([(0 : ℚ)] : List ℚ).length * ([(0 : ℚ)] : List ℚ).length ∧
       ∀ row ∈ blk, row.length = 18) :=
  ⟨by with_unfolding_all rfl,
   calc_scat_matrix_shape "home" "scratch" [1] [0] [0] 0 false 0
     sample_report sample_arr (by with_unfolding_all rfl)⟩

end Mstm
